import Mathlib

/-!
Shallow embedding of `src/earthquakes.js`: the playback clock, the
animation-frame scheduling discipline, the render-time mapping, the
per-event opacity model and the reactive child-composition primitive.
JavaScript numbers are modelled as rationals (all the arithmetic the
claims touch is exact on the inputs considered).
-/

namespace Earthquakes

/-- Global constant `playTime = 10000` (line 6). -/
def playTime : ℚ := 10000

/-- The playback state `{playing, currentTime, totalTime}` owned by the
clock (lines 8-12). -/
structure PlayState where
  playing : Bool
  currentTime : ℚ
  totalTime : ℚ
deriving DecidableEq

/-- The initial state (lines 8-12): paused at the end. -/
def startState : PlayState :=
  { playing := false, currentTime := playTime, totalTime := playTime }

/-- The pure content of `tick` (lines 42-59) applied to a state, with
`elapsed = Date.now() - lastFrameTime` passed explicitly:
`currentTime := min (currentTime + elapsed) totalTime`, and
`playing := currentTime >= totalTime ? false : true`. -/
def tick (s : PlayState) (elapsed : ℚ) : PlayState :=
  let currentTime := min (s.currentTime + elapsed) s.totalTime
  { playing := if currentTime ≥ s.totalTime then false else true
    currentTime := currentTime
    totalTime := s.totalTime }

/-- The states reached by a run of consecutive ticks with the given
elapsed durations. -/
def tickTrace (s : PlayState) : List ℚ → List PlayState
  | [] => []
  | e :: es => tick s e :: tickTrace (tick s e) es

/-- `play` (lines 61-68): rewind when at the end, then start playing. -/
def play (s : PlayState) : PlayState :=
  { s with
    playing := true
    currentTime := if s.currentTime = s.totalTime then 0 else s.currentTime }

/-- `pause` (lines 70-72). -/
def pause (s : PlayState) : PlayState :=
  { s with playing := false }

/-- The slider `input` listener (lines 108-113): the seek operation.
It multiplies the raw slider value by `playTime` with no clamping. -/
def sliderInput (s : PlayState) (v : ℚ) : PlayState :=
  { s with playing := false, currentTime := v * playTime }

/-- An earthquake feature: the fields of `properties` the core reads. -/
structure Feature where
  time : ℚ
  mag : ℚ
deriving DecidableEq

/-- A fallback feature; the source would throw on an empty batch, every
claim restricts to non-empty batches. -/
def defaultFeature : Feature := { time := 0, mag := 0 }

/-- The oldest timestamp of a newest-first batch:
`features[features.length - 1].properties.time` (line 85). -/
def extentOldest (features : List Feature) : ℚ :=
  ((features.getLast?).getD defaultFeature).time

/-- The newest timestamp of a newest-first batch:
`features[0].properties.time` (lines 86 and 235). -/
def extentNewest (features : List Feature) : ℚ :=
  ((features.head?).getD defaultFeature).time

/-- The extent span `newest - oldest` (line 87). -/
def extentSpan (features : List Feature) : ℚ :=
  extentNewest features - extentOldest features

/-- The combining function of `renderTime$` (lines 82-90):
`first + playState.currentTime * total / playTime`. -/
def renderTimeOf (features : List Feature) (ps : PlayState) : ℚ :=
  let first := extentOldest features
  let total := extentNewest features - extentOldest features
  first + ps.currentTime * total / playTime

/-- The fade window `6 * 60 * 60 * 1000` ms (line 256). -/
def DECAY_WINDOW : ℚ := 6 * 60 * 60 * 1000

/-- `featureOpacity` (lines 251-257). -/
def featureOpacity (renderTime featureTime : ℚ) : ℚ :=
  if renderTime < featureTime then 0
  else max (0.2 : ℚ) (1 - (renderTime - featureTime) / DECAY_WINDOW)

/-- The per-child opacity assignment in the `featureGroup$` scan
(lines 240-248): `renderTime >= lastTime ? 1 : featureOpacity(...)`. -/
def groupOpacity (lastTime renderTime featureTime : ℚ) : ℚ :=
  if renderTime ≥ lastTime then 1 else featureOpacity renderTime featureTime

/-- The opacities the `featureGroup$` scan writes to the group children,
in batch order, where `lastTime = features[0].properties.time`. -/
def featureGroupOpacities (features : List Feature) (renderTime : ℚ) : List ℚ :=
  features.map (fun f => groupOpacity (extentNewest features) renderTime f.time)

/-!
The clock's scheduling discipline (lines 17-34 and 42-59).  The mutable
ambient state is the pair `requestID` (the stored animation-frame handle,
modelled as a flag) and the number of callbacks currently pending inside
the browser's frame queue.  Every `playState$.onNext` synchronously runs
the subscriber of lines 22-34, which cancels any stored request and, when
playing, schedules exactly one new one.
-/

/-- The clock state together with the scheduling environment: the stored
`requestID` (line 19, `true` when an id is held) and how many frame
callbacks the runtime currently holds pending. -/
structure ClockState where
  playing : Bool
  currentTime : ℚ
  totalTime : ℚ
  requestID : Bool
  pendingFrames : Nat
deriving DecidableEq

/-- Lines 24-27: `if (requestID) { cancelAnimationFrame(requestID); requestID = null }`. -/
def cancelFrame (s : ClockState) : ClockState :=
  if s.requestID then
    { s with requestID := false, pendingFrames := s.pendingFrames - 1 }
  else s

/-- Lines 31-32: `requestID = requestAnimationFrame(tick)` queues one callback. -/
def scheduleFrame (s : ClockState) : ClockState :=
  { s with requestID := true, pendingFrames := s.pendingFrames + 1 }

/-- The `playState$.subscribe` body (lines 22-34), run synchronously on
every published snapshot: cancel first, then schedule iff playing. -/
def onPublish (s : ClockState) : ClockState :=
  let c := cancelFrame s
  if c.playing then scheduleFrame c else c

/-- The state right after startup: `startState` is published once to the
subscriber by the `BehaviorSubject` (line 14 and 22). -/
def clockInit : ClockState :=
  onPublish
    { playing := false, currentTime := playTime, totalTime := playTime
      requestID := false, pendingFrames := 0 }

/-- One transition of the clock: `play` (lines 61-68), `pause` (70-72),
the slider seek (108-113), or a pending frame callback firing `tick`
(42-59).  A firing callback leaves the runtime queue, the handler drops
the stored id (line 44), computes the merged update of lines 54-58 and
publishes it, which re-runs the subscriber of lines 22-34. -/
inductive ClockStep : ClockState → ClockState → Prop
  | play (s : ClockState) :
      ClockStep s (onPublish { s with
        playing := true
        currentTime := if s.currentTime = s.totalTime then 0 else s.currentTime })
  | pause (s : ClockState) :
      ClockStep s (onPublish { s with playing := false })
  | seek (s : ClockState) (v : ℚ) :
      ClockStep s (onPublish { s with playing := false, currentTime := v * playTime })
  | tickFire (s : ClockState) (e : ℚ) (h : s.pendingFrames ≠ 0) :
      ClockStep s (onPublish { s with
        pendingFrames := s.pendingFrames - 1
        requestID := false
        currentTime := min (s.currentTime + e) s.totalTime
        playing := if min (s.currentTime + e) s.totalTime ≥ s.totalTime then false else true })

/-- The reachable clock states. -/
inductive ClockReachable : ClockState → Prop
  | init : ClockReachable clockInit
  | step {s t : ClockState} : ClockReachable s → ClockStep s t → ClockReachable t

/-!
The reactive container composer `objectWithChildren` (lines 173-187).
Rx's `combineLatest` over the list of child sources is modelled over an
explicit schedule: a list of `(source index, value)` emission events in
arrival order.  `combineLatest` tracks the latest value of every source
and emits the full tuple on each event once every source has produced;
the `scan` of lines 182-186 then swaps the parent's children in place.
-/

/-- A renderable container: a stable identity plus its children. -/
structure Obj (V : Type) where
  id : Nat
  children : List V
deriving DecidableEq

/-- Line 183: `o.remove.apply(o, o.children)` empties the child list. -/
def removeChildren {V : Type} (o : Obj V) : Obj V :=
  { o with children := [] }

/-- Line 184: `o.add.apply(o, c)` appends the tuple of latest values. -/
def addChildren {V : Type} (o : Obj V) (cs : List V) : Obj V :=
  { o with children := o.children ++ cs }

/-- One step of the scan of lines 182-186: remove all, then add all. -/
def swapStep {V : Type} (o : Obj V) (cs : List V) : Obj V :=
  addChildren (removeChildren o) cs

/-- The emissions of `scan` seeded with `object` (lines 180-186): one
updated container per combined tuple. -/
def scanEmits {V : Type} (o : Obj V) : List (List V) → List (Obj V)
  | [] => []
  | cs :: rest => swapStep o cs :: scanEmits (swapStep o cs) rest

/-- Recording a new value from source `j` in the latest-value table. -/
def updLatest {V : Type} (latest : Nat → Option V) (j : Nat) (v : V) :
    Nat → Option V :=
  fun i => if i = j then some v else latest i

/-- Rx `combineLatest` semantics over an emission schedule, carrying the
latest value of each of the `n` sources: on each event, once every
source has a value, emit the tuple of latest values in source order. -/
def combineLatestAux {V : Type} (n : Nat) (latest : Nat → Option V) :
    List (Nat × V) → List (List V)
  | [] => []
  | ev :: rest =>
    let latest2 := updLatest latest ev.1 ev.2
    if (List.range n).all (fun i => (latest2 i).isSome) then
      (List.range n).filterMap latest2 :: combineLatestAux n latest2 rest
    else
      combineLatestAux n latest2 rest

/-- `objectWithChildren(object, children)` (lines 173-187) over a
schedule of emissions of its `n` child sources. -/
def objectWithChildren {V : Type} (o : Obj V) (n : Nat)
    (sched : List (Nat × V)) : List (Obj V) :=
  scanEmits o (combineLatestAux n (fun _ => none) sched)

/-- Modelled from the spec: the latest value source `i` has produced in
the processed prefix of the schedule (later events override earlier). -/
def lastEmit {V : Type} : List (Nat × V) → Nat → Option V
  | [], _ => none
  | ev :: rest, i => (lastEmit rest i).or (if ev.1 = i then some ev.2 else none)

/-- Modelled from the spec: the prefixes of the schedule after which the
composed stream emits, namely those ending at an event at which every
one of the `n` sources has produced at least one value. -/
def emissionPrefixes {V : Type} (n : Nat) (pre : List (Nat × V)) :
    List (Nat × V) → List (List (Nat × V))
  | [] => []
  | ev :: rest =>
    if (List.range n).all (fun i => (lastEmit (pre ++ [ev]) i).isSome) then
      (pre ++ [ev]) :: emissionPrefixes n (pre ++ [ev]) rest
    else
      emissionPrefixes n (pre ++ [ev]) rest

/-- A crossing into the end state: the pair of consecutive states where
the first is strictly before `totalTime` and the second has reached it. -/
def crossPred : PlayState × PlayState → Bool :=
  fun p => decide (p.1.currentTime < p.1.totalTime ∧ p.2.currentTime = p.2.totalTime)

/-!
Theorems settling the claims.
-/

theorem tick_currentTime_def (s : PlayState) (e : ℚ) :
    (tick s e).currentTime = min (s.currentTime + e) s.totalTime := rfl

theorem tick_totalTime_def (s : PlayState) (e : ℚ) :
    (tick s e).totalTime = s.totalTime := rfl

theorem tick_playing_iff (s : PlayState) (e : ℚ) :
    (tick s e).playing = true ↔ (tick s e).currentTime < s.totalTime := by
  show (if min (s.currentTime + e) s.totalTime ≥ s.totalTime then false else true) = true ↔
    min (s.currentTime + e) s.totalTime < s.totalTime
  split
  · rename_i h
    simp only [Bool.false_eq_true, false_iff, not_lt]
    exact h
  · rename_i h
    push_neg at h
    simp only [true_iff]
    exact h

theorem tick_mono (s : PlayState) (e : ℚ)
    (hcur : s.currentTime ≤ s.totalTime) (he : 0 ≤ e) :
    s.currentTime ≤ (tick s e).currentTime :=
  le_min (by linarith) hcur

theorem tick_le_total (s : PlayState) (e : ℚ) :
    (tick s e).currentTime ≤ (tick s e).totalTime :=
  min_le_right _ _

theorem tick_end_absorb (s : PlayState) (e : ℚ)
    (hend : s.currentTime = s.totalTime) (he : 0 ≤ e) :
    (tick s e).currentTime = (tick s e).totalTime := by
  rw [tick_currentTime_def, tick_totalTime_def, hend]
  exact min_eq_right (by linarith)

theorem tick_end_not_playing (s : PlayState) (e : ℚ)
    (h : (tick s e).currentTime = (tick s e).totalTime) :
    (tick s e).playing = false := by
  have h3 : min (s.currentTime + e) s.totalTime ≥ s.totalTime := ge_of_eq h
  show (if min (s.currentTime + e) s.totalTime ≥ s.totalTime then false else true) = false
  rw [if_pos h3]

theorem tickTrace_chain (s : PlayState) (es : List ℚ)
    (hcur : s.currentTime ≤ s.totalTime) (hes : ∀ e ∈ es, 0 ≤ e) :
    List.Chain (fun a b => a.currentTime ≤ b.currentTime) s (tickTrace s es) := by
  induction es generalizing s with
  | nil => exact List.Chain.nil
  | cons e es ih =>
    have he : 0 ≤ e := hes e (List.mem_cons_self e es)
    exact List.Chain.cons (tick_mono s e hcur he)
      (ih (tick s e) (tick_le_total s e)
        (fun x hx => hes x (List.mem_cons_of_mem e hx)))

theorem tickTrace_end_paused (s : PlayState) (es : List ℚ) :
    ∀ t ∈ tickTrace s es, t.currentTime = t.totalTime → t.playing = false := by
  induction es generalizing s with
  | nil => intro t ht; simp [tickTrace] at ht
  | cons e es ih =>
    intro t ht
    simp only [tickTrace, List.mem_cons] at ht
    rcases ht with rfl | ht
    · exact tick_end_not_playing s e
    · exact ih (tick s e) t ht

theorem tickTrace_absorb (s : PlayState) (es : List ℚ)
    (hend : s.currentTime = s.totalTime) (hes : ∀ e ∈ es, 0 ≤ e) :
    ∀ t ∈ tickTrace s es, t.currentTime = t.totalTime := by
  induction es generalizing s with
  | nil => intro t ht; simp [tickTrace] at ht
  | cons e es ih =>
    intro t ht
    simp only [tickTrace, List.mem_cons] at ht
    have he : 0 ≤ e := hes e (List.mem_cons_self e es)
    have habs : (tick s e).currentTime = (tick s e).totalTime :=
      tick_end_absorb s e hend he
    rcases ht with rfl | ht
    · exact habs
    · exact ih (tick s e) habs (fun x hx => hes x (List.mem_cons_of_mem e hx)) t ht

theorem crossings_zero (s : PlayState) (es : List ℚ)
    (hend : s.currentTime = s.totalTime) (hes : ∀ e ∈ es, 0 ≤ e) :
    List.countP crossPred ((s :: tickTrace s es).zip (tickTrace s es)) = 0 := by
  induction es generalizing s with
  | nil => rfl
  | cons e es ih =>
    have he : 0 ≤ e := hes e (List.mem_cons_self e es)
    have habs : (tick s e).currentTime = (tick s e).totalTime :=
      tick_end_absorb s e hend he
    have hp : crossPred (s, tick s e) = false := by
      simp [crossPred, hend]
    simp only [tickTrace, List.zip_cons_cons, List.countP_cons, hp]
    simpa using ih (tick s e) habs (fun x hx => hes x (List.mem_cons_of_mem e hx))

theorem crossings_le_one (s : PlayState) (es : List ℚ)
    (hcur : s.currentTime ≤ s.totalTime) (hes : ∀ e ∈ es, 0 ≤ e) :
    List.countP crossPred ((s :: tickTrace s es).zip (tickTrace s es)) ≤ 1 := by
  induction es generalizing s with
  | nil => simp [tickTrace]
  | cons e es ih =>
    have hes2 : ∀ x ∈ es, 0 ≤ x := fun x hx => hes x (List.mem_cons_of_mem e hx)
    simp only [tickTrace, List.zip_cons_cons, List.countP_cons]
    by_cases hc : (tick s e).currentTime = (tick s e).totalTime
    · rw [crossings_zero (tick s e) es hc hes2]
      split <;> norm_num
    · have hp : crossPred (s, tick s e) = false := by
        simp only [crossPred, decide_eq_false_iff_not]
        intro hx
        exact hc (by rw [tick_totalTime_def]; exact hx.2)
      simp only [hp, Bool.false_eq_true, if_false, add_zero]
      exact ih (tick s e) (tick_le_total s e) hes2

/-- Claim C1: a `tick` with a given elapsed duration sets the new
`currentTime` to `min (currentTime + elapsed) totalTime` and keeps
`playing` true exactly when the new time is strictly below `totalTime`;
along any run of consecutive ticks with non-negative elapsed durations,
`currentTime` is non-decreasing, any state that has reached `totalTime`
has `playing = false`, and the run crosses into `totalTime` at most
once. -/
theorem tick_play_run (s : PlayState) (es : List ℚ)
    (hcur : s.currentTime ≤ s.totalTime) (hes : ∀ e ∈ es, 0 ≤ e) :
    (∀ e : ℚ, (tick s e).currentTime = min (s.currentTime + e) s.totalTime ∧
      ((tick s e).playing = true ↔ (tick s e).currentTime < s.totalTime)) ∧
    List.Chain (fun a b => a.currentTime ≤ b.currentTime) s (tickTrace s es) ∧
    (∀ t ∈ tickTrace s es, t.currentTime = t.totalTime → t.playing = false) ∧
    List.countP crossPred ((s :: tickTrace s es).zip (tickTrace s es)) ≤ 1 :=
  ⟨fun e => ⟨tick_currentTime_def s e, tick_playing_iff s e⟩,
   tickTrace_chain s es hcur hes,
   tickTrace_end_paused s es,
   crossings_le_one s es hcur hes⟩

/-- A play run starting at the beginning of the timeline. -/
def runState : PlayState := ⟨true, 0, 10000⟩

/-- Two frame gaps: 4000 ms then 7000 ms, enough to reach the end. -/
def runElapsed : List ℚ := [4000, 7000]

/-- Witness for C1 at a concrete two-tick run that reaches the end. -/
theorem tick_play_run_witness :
    (∀ e : ℚ, (tick runState e).currentTime =
        min (runState.currentTime + e) runState.totalTime ∧
      ((tick runState e).playing = true ↔
        (tick runState e).currentTime < runState.totalTime)) ∧
    List.Chain (fun a b => a.currentTime ≤ b.currentTime) runState
      (tickTrace runState runElapsed) ∧
    (∀ t ∈ tickTrace runState runElapsed,
      t.currentTime = t.totalTime → t.playing = false) ∧
    List.countP crossPred
      ((runState :: tickTrace runState runElapsed).zip
        (tickTrace runState runElapsed)) ≤ 1 :=
  tick_play_run runState runElapsed (by decide) (by decide)

/-- Coherence of the scheduling bookkeeping: the runtime holds exactly
one pending callback when an id is stored and none otherwise, and an id
is stored exactly while playing. -/
def ClockInv (s : ClockState) : Prop :=
  s.pendingFrames = (if s.requestID then 1 else 0) ∧ s.requestID = s.playing

theorem onPublish_inv (t : ClockState)
    (h : t.pendingFrames = if t.requestID then 1 else 0) :
    ClockInv (onPublish t) := by
  unfold onPublish cancelFrame scheduleFrame ClockInv
  by_cases hr : t.requestID <;> by_cases hp : t.playing <;>
    simp [hr, hp, h]

theorem clockStep_inv {s t : ClockState} (hs : ClockInv s) (hstep : ClockStep s t) :
    ClockInv t := by
  cases hstep with
  | play => exact onPublish_inv _ hs.1
  | pause => exact onPublish_inv _ hs.1
  | seek v => exact onPublish_inv _ hs.1
  | tickFire e h =>
    refine onPublish_inv _ ?_
    show s.pendingFrames - 1 = if false then 1 else 0
    rw [hs.1]
    split <;> norm_num

theorem clockReachable_inv {s : ClockState} (h : ClockReachable s) : ClockInv s := by
  induction h with
  | init => exact ⟨rfl, rfl⟩
  | step _ hstep ih => exact clockStep_inv ih hstep

/-- Claim C2: in every reachable state of the clock's scheduling step
relation, at most one frame callback is pending; leaving the playing
state (pause, seek, or the auto-pause at the end of `tick`) leaves no
dangling callback; and the publish handler, which cancels before it
schedules, keeps any coherent state at no more than one pending
callback. -/
theorem clock_single_pending (s : ClockState) (h : ClockReachable s) :
    s.pendingFrames ≤ 1 ∧
    (s.playing = false → s.pendingFrames = 0) ∧
    (∀ t : ClockState, t.pendingFrames = (if t.requestID then 1 else 0) →
      (onPublish t).pendingFrames ≤ 1) := by
  have hi := clockReachable_inv h
  refine ⟨?_, ?_, ?_⟩
  · rw [hi.1]
    split <;> norm_num
  · intro hp
    simp [hi.1, hi.2, hp]
  · intro t ht
    have h2 := (onPublish_inv t ht).1
    rw [h2]
    split <;> norm_num

/-- Witness for C2 at the initial state, reachable by construction. -/
theorem clock_single_pending_witness :
    clockInit.pendingFrames ≤ 1 ∧
    (clockInit.playing = false → clockInit.pendingFrames = 0) ∧
    (∀ t : ClockState, t.pendingFrames = (if t.requestID then 1 else 0) →
      (onPublish t).pendingFrames ≤ 1) :=
  clock_single_pending clockInit ClockReachable.init

/-- Claim C5: `play()` sets `playing` to true and resets `currentTime`
to 0 exactly when `currentTime = totalTime`, leaving it unchanged
otherwise; hence `pause()` directly followed by `play()` resumes from
the same `currentTime` except at the end, where it rewinds to 0. -/
theorem play_resumes_except_at_end (s : PlayState) :
    (play s).playing = true ∧
    (play s).currentTime = (if s.currentTime = s.totalTime then 0 else s.currentTime) ∧
    (play (pause s)).playing = true ∧
    (play (pause s)).currentTime =
      (if s.currentTime = s.totalTime then 0 else s.currentTime) := by
  exact ⟨rfl, rfl, rfl, rfl⟩

/-- Claim C10: `featureOpacity` always returns either exactly 0 or a
value in the band `[0.2, 1]`, and returns exactly 1 when the render
time equals the feature's timestamp. -/
theorem featureOpacity_range (t ft : ℚ) :
    (featureOpacity t ft = 0 ∨
      ((0.2 : ℚ) ≤ featureOpacity t ft ∧ featureOpacity t ft ≤ 1)) ∧
    featureOpacity t t = 1 := by
  have hD : (0 : ℚ) < DECAY_WINDOW := by norm_num [DECAY_WINDOW]
  constructor
  · unfold featureOpacity
    split
    · exact Or.inl rfl
    · rename_i h
      push_neg at h
      refine Or.inr ⟨le_max_left _ _, max_le (by norm_num) ?_⟩
      have hnn : (0 : ℚ) ≤ (t - ft) / DECAY_WINDOW :=
        div_nonneg (by linarith) hD.le
      linarith
  · unfold featureOpacity
    rw [if_neg (lt_irrefl t), sub_self, zero_div, sub_zero]
    exact max_eq_right (by norm_num)

/-- Claim C3: over a non-empty batch whose newest timestamp is
`features[0].properties.time`, the opacity written to each feature is 1
when the render time has reached the newest timestamp, 0 when the
feature is still in the future, and otherwise
`max(0.2, 1 - (t - timestamp)/DECAY_WINDOW)` with the decay window
fixed at 21600000 ms (6 hours). -/
theorem featureGroup_opacity_formula (features : List Feature) (t : ℚ)
    (hne : features ≠ []) :
    featureGroupOpacities features t =
      features.map (fun f =>
        if extentNewest features ≤ t then 1
        else if t < f.time then 0
        else max (0.2 : ℚ) (1 - (t - f.time) / 21600000)) ∧
    DECAY_WINDOW = 21600000 := by
  have hd : DECAY_WINDOW = 21600000 := by norm_num [DECAY_WINDOW]
  refine ⟨?_, hd⟩
  unfold featureGroupOpacities
  congr 1
  funext f
  unfold groupOpacity featureOpacity
  rw [hd]

/-- Witness for C3 at the spec's own scenario: batch `[1000, 0]`
(newest-first), render time 500. -/
theorem featureGroup_opacity_formula_witness :
    featureGroupOpacities [⟨1000, 5⟩, ⟨0, 6⟩] 500 =
      ([⟨1000, 5⟩, ⟨0, 6⟩] : List Feature).map (fun f =>
        if extentNewest [⟨1000, 5⟩, ⟨0, 6⟩] ≤ 500 then 1
        else if 500 < f.time then 0
        else max (0.2 : ℚ) (1 - (500 - f.time) / 21600000)) ∧
    DECAY_WINDOW = 21600000 :=
  featureGroup_opacity_formula [⟨1000, 5⟩, ⟨0, 6⟩] 500 (by decide)

/-- Claim C8: an event that has already occurred (`timestamp ≤ t`) while
the render time has not reached the batch's newest timestamp gets
opacity at least 0.2. -/
theorem occurred_opacity_floor (features : List Feature) (f : Feature) (t : ℚ)
    (hf : f ∈ features) (hocc : f.time ≤ t) (hlt : t < extentNewest features) :
    (0.2 : ℚ) ≤ groupOpacity (extentNewest features) t f.time := by
  unfold groupOpacity
  rw [if_neg (not_le.mpr hlt)]
  unfold featureOpacity
  rw [if_neg (not_lt.mpr hocc)]
  exact le_max_left _ _

/-- Witness for C8: the older event of the spec scenario at render time
500 has opacity at least 0.2. -/
theorem occurred_opacity_floor_witness :
    (0.2 : ℚ) ≤ groupOpacity (extentNewest [⟨1000, 5⟩, ⟨0, 6⟩]) 500 (0 : ℚ) :=
  occurred_opacity_floor [⟨1000, 5⟩, ⟨0, 6⟩] ⟨0, 6⟩ 500
    (by decide) (by norm_num) (by decide)

/-- Counterexample to claim C4 as stated: at seek fraction 2 the slider
listener stores `2 * playTime = 20000`, not the clamped
`clamp(2,0,1) * totalTime = 10000`. -/
theorem seek_clamp_cex :
    ¬ ((sliderInput startState 2).playing = false ∧
       (sliderInput startState 2).currentTime =
         min (max (2 : ℚ) 0) 1 * startState.totalTime) := by
  intro h
  have h2 := h.2
  norm_num [sliderInput, startState, playTime] at h2

/-- Claim C4 amended: the slider seek sets `playing := false` and
`currentTime := fraction * playTime` with no clamping; a fraction inside
`[0, 1]` therefore lands `currentTime` in `[0, totalTime]`, but an
out-of-range fraction is stored unclamped and produces an out-of-range
`currentTime`. -/
theorem sliderInput_no_clamp (s : PlayState) (v : ℚ) :
    (sliderInput s v).playing = false ∧
    (sliderInput s v).currentTime = v * playTime ∧
    (0 ≤ v ∧ v ≤ 1 →
      0 ≤ (sliderInput s v).currentTime ∧ (sliderInput s v).currentTime ≤ playTime) ∧
    (1 < v → playTime < (sliderInput s v).currentTime) := by
  refine ⟨rfl, rfl, ?_, ?_⟩
  · rintro ⟨h0, h1⟩
    unfold sliderInput playTime
    constructor
    · exact mul_nonneg h0 (by norm_num)
    · calc v * (10000 : ℚ) ≤ 1 * 10000 := by
            exact mul_le_mul_of_nonneg_right h1 (by norm_num)
        _ = 10000 := by norm_num
  · intro h1
    unfold sliderInput playTime
    show (10000 : ℚ) < v * 10000
    nlinarith

theorem lastEmit_append {V : Type} (xs ys : List (Nat × V)) (i : Nat) :
    lastEmit (xs ++ ys) i = (lastEmit ys i).or (lastEmit xs i) := by
  induction xs with
  | nil => simp [lastEmit, Option.or_none]
  | cons q xs ih => simp [lastEmit, ih, Option.or_assoc]

theorem updLatest_lastEmit {V : Type} (pre : List (Nat × V)) (ev : Nat × V) :
    updLatest (lastEmit pre) ev.1 ev.2 = lastEmit (pre ++ [ev]) := by
  funext i
  rw [lastEmit_append]
  show (if i = ev.1 then some ev.2 else lastEmit pre i) =
    (if ev.1 = i then some ev.2 else none).or (lastEmit pre i)
  by_cases h : i = ev.1
  · rw [if_pos h, if_pos h.symm]
    rfl
  · rw [if_neg h, if_neg (Ne.symm h)]
    rfl

theorem lastEmit_eq_none {V : Type} (p : List (Nat × V)) (i : Nat)
    (h : ∀ v, (i, v) ∉ p) : lastEmit p i = none := by
  induction p with
  | nil => rfl
  | cons q rest ih =>
    have h1 : ∀ v, (i, v) ∉ rest := fun v hv => h v (List.mem_cons_of_mem q hv)
    have h2 : q.1 ≠ i := by
      intro he
      exact h q.2 (by rw [← he]; exact List.mem_cons_self q rest)
    simp [lastEmit, ih h1, h2]

theorem scan_combine_spec {V : Type} (n : Nat) (rest : List (Nat × V)) :
    ∀ (pre : List (Nat × V)) (o : Obj V),
      scanEmits o (combineLatestAux n (lastEmit pre) rest) =
        (emissionPrefixes n pre rest).map
          (fun p => Obj.mk o.id ((List.range n).filterMap (lastEmit p))) := by
  induction rest with
  | nil => intro pre o; rfl
  | cons ev rest ih =>
    intro pre o
    simp only [combineLatestAux, emissionPrefixes, updLatest_lastEmit]
    by_cases hcond :
        ((List.range n).all fun i => (lastEmit (pre ++ [ev]) i).isSome) = true
    · rw [if_pos hcond, if_pos hcond]
      simp only [scanEmits, List.map_cons]
      have hswap : swapStep o ((List.range n).filterMap (lastEmit (pre ++ [ev]))) =
          Obj.mk o.id ((List.range n).filterMap (lastEmit (pre ++ [ev]))) := by
        simp [swapStep, addChildren, removeChildren]
      rw [hswap, ih (pre ++ [ev]) (Obj.mk o.id ((List.range n).filterMap (lastEmit (pre ++ [ev]))))]
    · rw [if_neg hcond, if_neg hcond]
      exact ih (pre ++ [ev]) o

theorem emissionPrefixes_eq_nil {V : Type} (n i : Nat) (hi : i < n) :
    ∀ (rest pre : List (Nat × V)),
      (∀ v, (i, v) ∉ pre) → (∀ v, (i, v) ∉ rest) →
        emissionPrefixes n pre rest = [] := by
  intro rest
  induction rest with
  | nil => intro pre _ _; rfl
  | cons ev rest ih =>
    intro pre hpre hrest
    have hrest1 : ∀ v, (i, v) ∉ rest :=
      fun v hv => hrest v (List.mem_cons_of_mem ev hv)
    have hpre1 : ∀ v, (i, v) ∉ pre ++ [ev] := by
      intro v hv
      rcases List.mem_append.mp hv with hv | hv
      · exact hpre v hv
      · rcases List.mem_singleton.mp hv with rfl
        exact hrest v (List.mem_cons_self _ _)
    have hnone : lastEmit (pre ++ [ev]) i = none := lastEmit_eq_none _ i hpre1
    simp only [emissionPrefixes]
    rw [if_neg ?_]
    · exact ih (pre ++ [ev]) hpre1 hrest1
    · intro hall
      have := List.all_eq_true.mp hall i (List.mem_range.mpr hi)
      rw [hnone] at this
      exact Bool.false_ne_true this

/-- Claim C7: `objectWithChildren` over any emission schedule of its `n`
child sources equals, emission for emission, the spec-level stream that
fires exactly at the events after which every source has produced at
least one value and whose children are the latest value of every source
in source-list order; in particular the parent identity is the same on
every emission, and if some source never produces a value the composed
stream never emits. -/
theorem objectWithChildren_spec {V : Type} (o : Obj V) (n : Nat)
    (sched : List (Nat × V)) :
    objectWithChildren o n sched =
      (emissionPrefixes n [] sched).map
        (fun p => Obj.mk o.id ((List.range n).filterMap (lastEmit p))) ∧
    (∀ x ∈ objectWithChildren o n sched, x.id = o.id) ∧
    ((∃ i, i < n ∧ ∀ v, (i, v) ∉ sched) → objectWithChildren o n sched = []) := by
  have hmain : objectWithChildren o n sched =
      (emissionPrefixes n [] sched).map
        (fun p => Obj.mk o.id ((List.range n).filterMap (lastEmit p))) := by
    unfold objectWithChildren
    have hfn : (fun _ : Nat => (none : Option V)) = lastEmit ([] : List (Nat × V)) := by
      funext i; rfl
    rw [hfn]
    exact scan_combine_spec n sched [] o
  refine ⟨hmain, ?_, ?_⟩
  · intro x hx
    rw [hmain] at hx
    rcases List.mem_map.mp hx with ⟨p, _, rfl⟩
    rfl
  · rintro ⟨i, hi, hnot⟩
    rw [hmain, emissionPrefixes_eq_nil n i hi sched [] (by simp) hnot]
    rfl

/-- Claim C6: with the constant total playback time, the render-time
stream computes `oldest + currentTime * span / totalTime`, which is
`oldest` at `currentTime = 0` and `newest` at `currentTime = totalTime`. -/
theorem renderTime_formula (features : List Feature) (ps : PlayState)
    (hne : features ≠ []) (htot : ps.totalTime = playTime) :
    renderTimeOf features ps =
      extentOldest features + ps.currentTime * extentSpan features / ps.totalTime ∧
    (ps.currentTime = 0 → renderTimeOf features ps = extentOldest features) ∧
    (ps.currentTime = ps.totalTime →
      renderTimeOf features ps = extentNewest features) := by
  refine ⟨?_, ?_, ?_⟩
  · unfold renderTimeOf extentSpan
    rw [htot]
  · intro h
    unfold renderTimeOf
    rw [h]
    ring
  · intro h
    unfold renderTimeOf
    rw [h, htot]
    unfold playTime
    ring

/-- Witness for C6 at the spec's scenario: batch `[1000, 0]`,
`currentTime = 5000`, `totalTime = 10000`. -/
theorem renderTime_formula_witness :
    renderTimeOf [⟨1000, 5⟩, ⟨0, 6⟩] ⟨false, 5000, 10000⟩ =
      extentOldest [⟨1000, 5⟩, ⟨0, 6⟩] +
        (⟨false, 5000, 10000⟩ : PlayState).currentTime *
          extentSpan [⟨1000, 5⟩, ⟨0, 6⟩] / (⟨false, 5000, 10000⟩ : PlayState).totalTime ∧
    ((⟨false, 5000, 10000⟩ : PlayState).currentTime = 0 →
      renderTimeOf [⟨1000, 5⟩, ⟨0, 6⟩] ⟨false, 5000, 10000⟩ =
        extentOldest [⟨1000, 5⟩, ⟨0, 6⟩]) ∧
    ((⟨false, 5000, 10000⟩ : PlayState).currentTime =
        (⟨false, 5000, 10000⟩ : PlayState).totalTime →
      renderTimeOf [⟨1000, 5⟩, ⟨0, 6⟩] ⟨false, 5000, 10000⟩ =
        extentNewest [⟨1000, 5⟩, ⟨0, 6⟩]) :=
  renderTime_formula [⟨1000, 5⟩, ⟨0, 6⟩] ⟨false, 5000, 10000⟩ (by decide)
    (by norm_num [playTime])

/-- Claim C9: a single-event batch has span 0 and render time constantly
equal to the oldest (only) timestamp, and the divisor used by the
computation is the non-zero constant `playTime`. -/
theorem renderTime_singleton (f : Feature) (ps : PlayState)
    (hpos : 0 < ps.totalTime) :
    renderTimeOf [f] ps = extentOldest [f] ∧ (playTime : ℚ) ≠ 0 := by
  constructor
  · unfold renderTimeOf extentOldest extentNewest
    simp
  · norm_num [playTime]

/-- Witness for C9 at a concrete one-event batch and mid-run state. -/
theorem renderTime_singleton_witness :
    renderTimeOf [⟨777, 3⟩] ⟨true, 4000, 10000⟩ = extentOldest [⟨777, 3⟩] ∧
    (playTime : ℚ) ≠ 0 :=
  renderTime_singleton ⟨777, 3⟩ ⟨true, 4000, 10000⟩ (by norm_num)

end Earthquakes
